import Mathlib

/-!
Verification of the nWave tag-cleanup engine
(src/scripts/release/cleanup/cleanup_tags.py).

The script audits, plans and executes a migration of a git tag namespace:
tags carrying the legacy marker (NWAVE_PREFIX, the string "nWave_v") are
renamed to the plain "v" scheme, every other tag is deleted, and tags that
the run itself created are protected from its own delete phase.

The embedding below models the tag store (local and remote namespaces) as
association lists from tag name to commit id, and models the fallibility of
each individual git subprocess call with an explicit oracle.  Python string
operations (startswith, slicing, sorted) are embedded at the character-list
level so that every definition evaluates inside the kernel.
-/

namespace NWave

abbrev Tag := String
abbrev Commit := String

/-- Embeds enum TagClassification (cleanup_tags.py lines 32-36). -/
inductive TagClassification where
  | RENAME
  | DELETE
  deriving DecidableEq

/-- Embeds dataclass ClassifiedTag (lines 39-44). -/
structure ClassifiedTag where
  name : Tag
  classification : TagClassification
  deriving DecidableEq

/-- Embeds dataclass RenameEntry (lines 47-52). -/
structure RenameEntry where
  old_name : Tag
  new_name : Tag
  deriving DecidableEq

/-- Embeds dataclass AuditReport (lines 55-71). -/
structure AuditReport where
  tags : List ClassifiedTag
  deriving DecidableEq

/-- Embeds AuditReport.total (lines 61-63). -/
def AuditReport.total (r : AuditReport) : Nat := r.tags.length

/-- Embeds AuditReport.rename_count (lines 65-67): sum of 1 over RENAME tags. -/
def AuditReport.rename_count (r : AuditReport) : Nat :=
  (r.tags.filter (fun t => t.classification == TagClassification.RENAME)).length

/-- Embeds AuditReport.delete_count (lines 69-71): sum of 1 over DELETE tags. -/
def AuditReport.delete_count (r : AuditReport) : Nat :=
  (r.tags.filter (fun t => t.classification == TagClassification.DELETE)).length

/-- Embeds dataclass CleanupPlan (lines 74-79). -/
structure CleanupPlan where
  to_rename : List RenameEntry
  to_delete : List ClassifiedTag
  deriving DecidableEq

/-- Embeds dataclass ExecuteResult (lines 82-90). -/
structure ExecuteResult where
  renamed_count : Nat
  renamed_tags : List String
  deleted_count : Nat
  deleted_tags : List String
  errors : List String
  deriving DecidableEq

/-- The all-default ExecuteResult() constructed at line 181. -/
def ExecuteResult.init : ExecuteResult := ⟨0, [], 0, [], []⟩

/-- Embeds the constant NWAVE_PREFIX = "nWave_v" (line 93). -/
def NWAVE_PFX : String := "nWave_v"

/-- Embeds classify_tag (lines 96-104).  Python's tag.startswith(NWAVE_PREFIX)
is embedded as a character-list prefix test. -/
def classify_tag (tag : Tag) : TagClassification :=
  if NWAVE_PFX.data.isPrefixOf tag.data then TagClassification.RENAME
  else TagClassification.DELETE

/-- Embeds rename_target (lines 107-112): "v" + tag[len(NWAVE_PREFIX):],
with the Python character slice embedded as List.drop on the data. -/
def rename_target (tag : Tag) : Tag :=
  String.mk ('v' :: tag.data.drop NWAVE_PFX.data.length)

/-- Embeds the Python slice commit[:8] used in the conflict message (line 213). -/
def trunc8 (c : Commit) : String := String.mk (c.data.take 8)

/-- The mutable substrate TagCleaner operates on: the local tag namespace and
the optional remote tag namespace, each a map from tag name to commit id. -/
structure Store where
  tags : List (Tag × Commit)
  remote_tags : List (Tag × Commit)
  deriving DecidableEq

/-- Which individual git subprocess calls fail: models the possible
subprocess.CalledProcessError outcomes of each store operation in
TagCleaner._run_git (lines 126-134), per operation kind and tag argument. -/
structure FailureOracle where
  list_fails : Bool
  resolve_fails : Tag → Bool
  create_fails : Tag → Bool
  delete_local_fails : Tag → Bool
  push_fails : Tag → Bool
  delete_remote_fails : Tag → Bool

/-- The oracle under which every git call succeeds. -/
def noFailures : FailureOracle :=
  ⟨false, fun _ => false, fun _ => false, fun _ => false, fun _ => false, fun _ => false⟩

/-- Lexicographic code-point comparison of character lists: the order
Python's sorted() uses on strings. -/
def chars_le : List Char → List Char → Bool
  | [], _ => true
  | _ :: _, [] => false
  | a :: as, b :: bs => if a = b then chars_le as bs else decide (a < b)

/-- Insertion step of the stable sort embedding Python's sorted(). -/
def insert_sorted (x : Tag) : List Tag → List Tag
  | [] => [x]
  | y :: ys => if chars_le x.data y.data then x :: y :: ys else y :: insert_sorted x ys

/-- Embeds the sorted(...) call of TagCleaner._list_tags (lines 139-141). -/
def sort_tags : List Tag → List Tag
  | [] => []
  | x :: xs => insert_sorted x (sort_tags xs)

/-- Embeds TagCleaner._list_tags (lines 136-141): git tag --list, one name per
line, sorted.  The line stripping is stdout parsing and is not modelled: the
store holds the tag names directly. -/
def list_tags (o : FailureOracle) (s : Store) : Except String (List Tag) :=
  if o.list_fails then Except.error ("git tag --list failed")
  else Except.ok (sort_tags (s.tags.map Prod.fst))

/-- Embeds TagCleaner._get_tag_commit (lines 143-146): git rev-list -n 1 tag,
which fails on an unknown tag or on a subprocess failure. -/
def get_tag_commit (o : FailureOracle) (s : Store) (tag : Tag) : Except String Commit :=
  if o.resolve_fails tag then Except.error (("git rev-list failed for ") ++ tag)
  else
    match s.tags.lookup tag with
    | some c => Except.ok c
    | none => Except.error (("unknown revision ") ++ tag)

/-- Embeds the git tag new_tag commit call (line 220): fails when the name
already exists or when the subprocess fails, otherwise adds the tag. -/
def create_tag (o : FailureOracle) (s : Store) (tag : Tag) (commit : Commit) :
    Except String Store :=
  if (s.tags.lookup tag).isSome || o.create_fails tag then
    Except.error (("git tag failed for ") ++ tag)
  else Except.ok { s with tags := s.tags ++ [(tag, commit)] }

/-- Embeds TagCleaner._delete_tag_local (lines 261-268): git tag -d, True on
success, error appended and False returned on failure. -/
def delete_tag_local (o : FailureOracle) (tag : Tag) (s : Store) (result : ExecuteResult) :
    Bool × Store × ExecuteResult :=
  if (s.tags.lookup tag).isSome && !(o.delete_local_fails tag) then
    (true, { s with tags := s.tags.filter (fun p => !(p.1 == tag)) }, result)
  else
    (false, s, { result with errors := result.errors ++ [("Failed to delete local tag ") ++ tag] })

/-- Embeds TagCleaner._delete_tag_remote (lines 270-277): git push rem
:refs/tags/tag, True on success, error appended and False on failure. -/
def delete_tag_remote (o : FailureOracle) (tag : Tag) (_rem : String) (s : Store)
    (result : ExecuteResult) : Bool × Store × ExecuteResult :=
  if !(o.delete_remote_fails tag) then
    (true, { s with remote_tags := s.remote_tags.filter (fun p => !(p.1 == tag)) }, result)
  else
    (false, s, { result with errors := result.errors ++ [("Failed to delete remote tag ") ++ tag] })

/-- Embeds the git push rem refs/tags/tag call (line 227): copies the local
ref to the remote namespace, failing when the subprocess fails. -/
def push_tag (o : FailureOracle) (tag : Tag) (_rem : String) (s : Store) : Except String Store :=
  if o.push_fails tag then Except.error (("push rejected for ") ++ tag)
  else
    match s.tags.lookup tag with
    | some c =>
      Except.ok { s with remote_tags := s.remote_tags.filter (fun p => !(p.1 == tag)) ++ [(tag, c)] }
    | none => Except.ok s

/-- Embeds the if remote: ... _delete_tag_remote(...) pattern of lines
201-202, 235-236 and 250-251; the returned success flag is ignored there. -/
def remote_delete_step (o : FailureOracle) (remote : Option String) (tag : Tag) (s : Store)
    (result : ExecuteResult) : Store × ExecuteResult :=
  match remote with
  | some rem =>
    let t := delete_tag_remote o tag rem s result
    (t.2.1, t.2.2)
  | none => (s, result)

/-- Embeds lines 225-231: when a remote is configured, push the new tag; a
push failure is recorded as an error but does not block the next step. -/
def push_step (o : FailureOracle) (remote : Option String) (tag : Tag) (s : Store)
    (result : ExecuteResult) : Store × ExecuteResult :=
  match remote with
  | some rem =>
    match push_tag o tag rem s with
    | Except.ok s1 => (s1, result)
    | Except.error msg =>
      (s, { result with errors := result.errors ++
              [("Failed to push tag ") ++ tag ++ (" to remote: ") ++ msg] })
  | none => (s, result)

/-- Embeds TagCleaner.audit (lines 148-156): classify every listed tag. -/
def audit (o : FailureOracle) (s : Store) : Except String AuditReport :=
  match list_tags o s with
  | Except.error e => Except.error e
  | Except.ok tags => Except.ok ⟨tags.map (fun t => ⟨t, classify_tag t⟩)⟩

/-- Embeds the partition loop of TagCleaner.plan (lines 162-171): RENAME tags
become RenameEntry(old, rename_target old), the rest go to to_delete. -/
def plan_tags : List Tag → CleanupPlan
  | [] => ⟨[], []⟩
  | tag :: rest =>
    let p := plan_tags rest
    match classify_tag tag with
    | TagClassification.RENAME => ⟨⟨tag, rename_target tag⟩ :: p.to_rename, p.to_delete⟩
    | TagClassification.DELETE => ⟨p.to_rename, ⟨tag, TagClassification.DELETE⟩ :: p.to_delete⟩

/-- Embeds TagCleaner.plan (lines 158-172). -/
def plan (o : FailureOracle) (s : Store) : Except String CleanupPlan :=
  match list_tags o s with
  | Except.error e => Except.error e
  | Except.ok tags => Except.ok (plan_tags tags)

/-- Embeds phase 1 of TagCleaner.execute (lines 186-240): for each rename
entry, re-list the tags; on a target-name conflict resolve both commits and
either delete only the old tag (same commit) or record an error and skip
(different commits); otherwise create the new tag at the old tag's commit
(a creation failure is recorded and skips the entry), push it when a remote
is configured, delete the old tag locally and remotely, protect the new name
and record the rename.  List and resolve failures propagate as in Python. -/
def rename_phase (o : FailureOracle) (remote : Option String) :
    List RenameEntry → Store → ExecuteResult → List Tag →
      Except String (Store × ExecuteResult × List Tag)
  | [], s, result, protected_tags => Except.ok (s, result, protected_tags)
  | entry :: rest, s, result, protected_tags =>
    match list_tags o s with
    | Except.error e => Except.error e
    | Except.ok existing_tags =>
      if entry.new_name ∈ existing_tags then
        match get_tag_commit o s entry.old_name with
        | Except.error e => Except.error e
        | Except.ok old_commit =>
          match get_tag_commit o s entry.new_name with
          | Except.error e => Except.error e
          | Except.ok new_commit =>
            if old_commit = new_commit then
              let step1 := delete_tag_local o entry.old_name s result
              let step2 := remote_delete_step o remote entry.old_name step1.2.1 step1.2.2
              rename_phase o remote rest step2.1
                { step2.2 with
                    renamed_count := step2.2.renamed_count + 1,
                    renamed_tags := step2.2.renamed_tags ++
                      [entry.old_name ++ (" -> ") ++ entry.new_name ++ (" (conflict resolved)")] }
                (protected_tags ++ [entry.new_name])
            else
              rename_phase o remote rest s
                { result with errors := result.errors ++
                    [("Conflict: ") ++ entry.old_name ++ (" and ") ++ entry.new_name ++
                      (" point to different commits. Old: ") ++ trunc8 old_commit ++
                      (", existing: ") ++ trunc8 new_commit ++ (". Skipped.")] }
                protected_tags
      else
        match get_tag_commit o s entry.old_name with
        | Except.error e => Except.error e
        | Except.ok commit =>
          match create_tag o s entry.new_name commit with
          | Except.error msg =>
            rename_phase o remote rest s
              { result with errors := result.errors ++
                  [("Failed to create tag ") ++ entry.new_name ++ (": ") ++ msg] }
              protected_tags
          | Except.ok s1 =>
            let step2 := push_step o remote entry.new_name s1 result
            let step3 := delete_tag_local o entry.old_name step2.1 step2.2
            let step4 := remote_delete_step o remote entry.old_name step3.2.1 step3.2.2
            rename_phase o remote rest step4.1
              { step4.2 with
                  renamed_count := step4.2.renamed_count + 1,
                  renamed_tags := step4.2.renamed_tags ++
                    [entry.old_name ++ (" -> ") ++ entry.new_name] }
              (protected_tags ++ [entry.new_name])

/-- Embeds phase 2 of TagCleaner.execute (lines 242-257): over the re-read
tag list, skip protected names, delete every tag classified DELETE; on local
success mirror the deletion remotely and count it.  The best-effort hosted
release deletion (_delete_gh_release, lines 279-297) swallows every failure
and never touches the tag store, so it has no effect on the modelled state. -/
def delete_phase (o : FailureOracle) (remote : Option String) (gh_repo : Option String)
    (protected_tags : List Tag) :
    List Tag → Store → ExecuteResult → Store × ExecuteResult
  | [], s, result => (s, result)
  | tag :: rest, s, result =>
    if tag ∈ protected_tags then
      delete_phase o remote gh_repo protected_tags rest s result
    else if classify_tag tag = TagClassification.DELETE then
      let step1 := delete_tag_local o tag s result
      if step1.1 then
        let step2 := remote_delete_step o remote tag step1.2.1 step1.2.2
        delete_phase o remote gh_repo protected_tags rest step2.1
          { step2.2 with
              deleted_count := step2.2.deleted_count + 1,
              deleted_tags := step2.2.deleted_tags ++ [tag] }
      else
        delete_phase o remote gh_repo protected_tags rest step1.2.1 step1.2.2
    else
      delete_phase o remote gh_repo protected_tags rest s result

/-- Embeds TagCleaner.execute (lines 174-259): plan, rename phase with an
initially empty protected set, re-read of the tag list, delete phase. -/
def execute (o : FailureOracle) (gh_repo : Option String) (remote : Option String) (s : Store) :
    Except String (ExecuteResult × Store) :=
  match plan o s with
  | Except.error e => Except.error e
  | Except.ok cleanup_plan =>
    match rename_phase o remote cleanup_plan.to_rename s ExecuteResult.init [] with
    | Except.error e => Except.error e
    | Except.ok (s1, result1, protected_tags) =>
      match list_tags o s1 with
      | Except.error e => Except.error e
      | Except.ok current_tags =>
        let step := delete_phase o remote gh_repo protected_tags current_tags s1 result1
        Except.ok (step.2, step.1)

/-- Both count fields of an ExecuteResult agree with the lengths of their
description lists. -/
def counts_ok (r : ExecuteResult) : Prop :=
  r.renamed_count = r.renamed_tags.length ∧ r.deleted_count = r.deleted_tags.length

/-- Concrete store for the migration scenario of spec section 8: the two
legacy tags for 1.1.20 and 1.1.21 plus the eight plain tags. -/
def scenario_store : Store :=
  ⟨[(("nWave_v1.1.20"), ("c1120aaa")), (("nWave_v1.1.21"), ("c1121bbb")),
    (("v2.17.0"), ("d0d0d0d0")), (("v2.17.1"), ("d1d1d1d1")), (("v2.17.2"), ("d2d2d2d2")),
    (("v2.17.3"), ("d3d3d3d3")), (("v2.17.4"), ("d4d4d4d4")), (("v2.17.5"), ("d5d5d5d5")),
    (("v2.17.6"), ("d6d6d6d6")), (("v1.4.8"), ("e8e8e8e8"))], []⟩

/-- The cleanup plan the script computes for scenario_store. -/
def scenarioPlanned : CleanupPlan :=
  ⟨[⟨("nWave_v1.1.20"), ("v1.1.20")⟩, ⟨("nWave_v1.1.21"), ("v1.1.21")⟩],
   [⟨("v1.4.8"), TagClassification.DELETE⟩, ⟨("v2.17.0"), TagClassification.DELETE⟩,
    ⟨("v2.17.1"), TagClassification.DELETE⟩, ⟨("v2.17.2"), TagClassification.DELETE⟩,
    ⟨("v2.17.3"), TagClassification.DELETE⟩, ⟨("v2.17.4"), TagClassification.DELETE⟩,
    ⟨("v2.17.5"), TagClassification.DELETE⟩, ⟨("v2.17.6"), TagClassification.DELETE⟩]⟩

/-- The store state after the rename phase of the no-failure scenario run. -/
def scenario_after_rename : Store :=
  ⟨[(("v2.17.0"), ("d0d0d0d0")), (("v2.17.1"), ("d1d1d1d1")), (("v2.17.2"), ("d2d2d2d2")),
    (("v2.17.3"), ("d3d3d3d3")), (("v2.17.4"), ("d4d4d4d4")), (("v2.17.5"), ("d5d5d5d5")),
    (("v2.17.6"), ("d6d6d6d6")), (("v1.4.8"), ("e8e8e8e8")),
    (("v1.1.20"), ("c1120aaa")), (("v1.1.21"), ("c1121bbb"))], []⟩

/-- The running result after the rename phase of the scenario run. -/
def scenario_r1 : ExecuteResult :=
  ⟨2, [("nWave_v1.1.20 -> v1.1.20"), ("nWave_v1.1.21 -> v1.1.21")], 0, [], []⟩

/-- The final result of the scenario run. -/
def scenario_result : ExecuteResult :=
  ⟨2, [("nWave_v1.1.20 -> v1.1.20"), ("nWave_v1.1.21 -> v1.1.21")], 8,
   [("v1.4.8"), ("v2.17.0"), ("v2.17.1"), ("v2.17.2"), ("v2.17.3"), ("v2.17.4"),
    ("v2.17.5"), ("v2.17.6")], []⟩

/-- The final store of the scenario run. -/
def scenario_final : Store :=
  ⟨[(("v1.1.20"), ("c1120aaa")), (("v1.1.21"), ("c1121bbb"))], []⟩

/-- A store holding one legacy tag and one unrelated plain tag. -/
def small_store : Store :=
  ⟨[(("nWave_v1.0.0"), ("c1c1c1c1c1")), (("v2.0.0"), ("d1d1d1d1d1"))], []⟩

/-- A store where the rename target of the only legacy tag already exists at a
different commit. -/
def conflict_store : Store :=
  ⟨[(("nWave_v1.0.0"), ("a1a1a1a1a1")), (("v1.0.0"), ("b2b2b2b2b2"))], []⟩

/-- A store where the legacy tag and its rename target point to the same
commit. -/
def duplicate_store : Store :=
  ⟨[(("nWave_v1.0.0"), ("a1a1a1a1a1")), (("v1.0.0"), ("a1a1a1a1a1"))], []⟩

/-- Oracle failing exactly the resolve call on the tag nWave_v1.0.0 while
every other git call succeeds. -/
def resolve_fail_oracle : FailureOracle :=
  ⟨false, fun t => t == ("nWave_v1.0.0"), fun _ => false, fun _ => false,
    fun _ => false, fun _ => false⟩

/-- Oracle failing every create, local-delete, push and remote-delete call
while both read operations (list, resolve) succeed. -/
def writes_fail_oracle : FailureOracle :=
  ⟨false, fun _ => false, fun _ => true, fun _ => true, fun _ => true, fun _ => true⟩

/-- Oracle failing exactly the create call of the tag v1.0.0. -/
def create_fail_oracle : FailureOracle :=
  ⟨false, fun _ => false, fun t => t == ("v1.0.0"), fun _ => false,
    fun _ => false, fun _ => false⟩

/-- Inserting preserves the multiset of tags. -/
theorem insert_sorted_perm (x : Tag) (l : List Tag) : List.Perm (insert_sorted x l) (x :: l) := by
  induction l with
  | nil => exact List.Perm.refl _
  | cons y ys ih =>
    by_cases h : chars_le x.data y.data = true
    · simp [insert_sorted, h]
    · simp only [insert_sorted, if_neg h]
      exact (ih.cons y).trans (List.Perm.swap x y ys)

/-- The sort used by _list_tags permutes its input. -/
theorem sort_tags_perm (l : List Tag) : List.Perm (sort_tags l) l := by
  induction l with
  | nil => exact List.Perm.refl _
  | cons x xs ih => exact (insert_sorted_perm x (sort_tags xs)).trans (ih.cons x)

/-- Membership is invariant under the sort. -/
theorem mem_sort_tags {a : Tag} {l : List Tag} : a ∈ sort_tags l ↔ a ∈ l :=
  (sort_tags_perm l).mem_iff

/-- Erasing one tag name from an association list leaves every other name's
binding unchanged. -/
theorem lookup_filter_ne {β : Type} {a b : Tag} (hne : b ≠ a) (l : List (Tag × β)) :
    (l.filter (fun p => !(p.1 == a))).lookup b = l.lookup b := by
  induction l with
  | nil => rfl
  | cons p ps ih =>
    obtain ⟨k, v⟩ := p
    by_cases h : k = a
    · subst h
      simp only [List.filter_cons, beq_self_eq_true, Bool.not_true]
      rw [if_neg (by decide : ¬ (false = true))]
      rw [ih, List.lookup_cons]
      have hb : (b == k) = false := by simp [hne]
      simp [hb]
    · have hk : (!(k == a)) = true := by simp [h]
      simp only [List.filter_cons, hk, if_pos]
      rw [List.lookup_cons, List.lookup_cons, ih]

/-- A name occurring in an association list's key column has a binding. -/
theorem lookup_isSome_of_mem_names {β : Type} {n : Tag} {l : List (Tag × β)}
    (h : n ∈ l.map Prod.fst) : (l.lookup n).isSome := by
  rw [List.lookup_isSome_iff]
  rcases List.mem_map.mp h with ⟨p, hp, he⟩
  exact ⟨p, hp, by simp [he]⟩

/-- Claim C7: classify_tag T is RENAME exactly when T starts with the fixed
legacy marker NWAVE_PREFIX, and DELETE otherwise; being a total Lean function
of the name alone it is pure with no failure modes. -/
theorem classify_tag_rename_iff (T : Tag) :
    (classify_tag T = TagClassification.RENAME ↔ NWAVE_PFX.data <+: T.data) ∧
    (classify_tag T = TagClassification.DELETE ↔ ¬ NWAVE_PFX.data <+: T.data) := by
  unfold classify_tag
  by_cases h : NWAVE_PFX.data <+: T.data
  · rw [if_pos (List.isPrefixOf_iff_prefix.mpr h)]
    simp [h]
  · rw [if_neg (fun hb => h (List.isPrefixOf_iff_prefix.mp hb))]
    simp [h]

/-- Claim C9: the rename target of a legacy tag always starts with the plain
marker and never with the legacy one, so classify_tag maps it to DELETE. -/
theorem classify_rename_target_delete (T : Tag) (h : NWAVE_PFX.data <+: T.data) :
    classify_tag (rename_target T) = TagClassification.DELETE := by
  have hd : (rename_target T).data = 'v' :: T.data.drop NWAVE_PFX.data.length := rfl
  have hnp : ¬ NWAVE_PFX.data <+: (rename_target T).data := by
    rw [hd]
    intro hpre
    have he : NWAVE_PFX.data = 'n' :: ['W', 'a', 'v', 'e', '_', 'v'] := rfl
    rw [he] at hpre
    rcases List.cons_prefix_iff.mp hpre with ⟨h1, _⟩
    exact absurd h1 (by decide)
  unfold classify_tag
  rw [if_neg (fun hb => hnp (List.isPrefixOf_iff_prefix.mp hb))]

/-- Witness for claim C9 at the concrete legacy tag nWave_v1.1.21. -/
theorem classify_rename_target_delete_witness :
    NWAVE_PFX.data <+: ("nWave_v1.1.21" : String).data ∧
      classify_tag (rename_target ("nWave_v1.1.21")) = TagClassification.DELETE :=
  ⟨by decide, classify_rename_target_delete ("nWave_v1.1.21") (by decide)⟩

/-- Claim C6: on the ten-tag scenario store with no failures, audit reports
total 10, rename_count 2, delete_count 8; execute with no remote reports
renamed_count 2 and deleted_count 8 and leaves exactly v1.1.20 and v1.1.21. -/
theorem scenario_audit_execute :
    (audit noFailures scenario_store).map
        (fun rep => (rep.total, rep.rename_count, rep.delete_count)) =
      Except.ok (10, 2, 8) ∧
    (execute noFailures none none scenario_store).map
        (fun p => (p.1.renamed_count, p.1.deleted_count, sort_tags (p.2.tags.map Prod.fst))) =
      Except.ok (2, 8, [("v1.1.20"), ("v1.1.21")]) :=
  ⟨rfl, rfl⟩

/-- Claim C3: on a rename entry whose target already exists at a different
commit, the rename phase mutates neither tag (store passed on unchanged),
appends exactly one error naming both tags with truncated commit ids, and
proceeds to the remaining entries with an unchanged protected set. -/
theorem rename_conflict_different_commits (o : FailureOracle) (remote : Option String)
    (entry : RenameEntry) (rest : List RenameEntry) (s : Store) (result : ExecuteResult)
    (protected_tags : List Tag) (ts : List Tag) (c1 c2 : Commit)
    (hl : list_tags o s = Except.ok ts) (hmem : entry.new_name ∈ ts)
    (h1 : get_tag_commit o s entry.old_name = Except.ok c1)
    (h2 : get_tag_commit o s entry.new_name = Except.ok c2)
    (hne : c1 ≠ c2) :
    rename_phase o remote (entry :: rest) s result protected_tags =
      rename_phase o remote rest s
        { result with errors := result.errors ++
            [("Conflict: ") ++ entry.old_name ++ (" and ") ++ entry.new_name ++
              (" point to different commits. Old: ") ++ trunc8 c1 ++
              (", existing: ") ++ trunc8 c2 ++ (". Skipped.")] }
        protected_tags := by
  simp only [rename_phase]
  rw [hl]
  simp only [if_pos hmem]
  rw [h1, h2]
  simp only [if_neg hne]

/-- Claim C8: on a rename entry whose target does not yet exist, a failing
tag creation appends one error, skips the rest of the entry (no push, no
deletion, no protection, no rename recorded) and leaves the store — in
particular old_name and its commit — untouched. -/
theorem rename_create_failure (o : FailureOracle) (remote : Option String)
    (entry : RenameEntry) (rest : List RenameEntry) (s : Store) (result : ExecuteResult)
    (protected_tags : List Tag) (ts : List Tag) (c : Commit) (msg : String)
    (hl : list_tags o s = Except.ok ts) (hmem : entry.new_name ∉ ts)
    (h1 : get_tag_commit o s entry.old_name = Except.ok c)
    (hcf : create_tag o s entry.new_name c = Except.error msg) :
    rename_phase o remote (entry :: rest) s result protected_tags =
      rename_phase o remote rest s
        { result with errors := result.errors ++
            [("Failed to create tag ") ++ entry.new_name ++ (": ") ++ msg] }
        protected_tags ∧
    s.tags.lookup entry.old_name = some c := by
  have hold : s.tags.lookup entry.old_name = some c := by
    unfold get_tag_commit at h1
    by_cases hr : o.resolve_fails entry.old_name = true
    · rw [if_pos hr] at h1
      exact absurd h1 (by simp)
    · rw [if_neg hr] at h1
      cases hlk : s.tags.lookup entry.old_name with
      | some cc => rw [hlk] at h1; cases h1; rfl
      | none => rw [hlk] at h1; exact absurd h1 (by simp)
  refine ⟨?_, hold⟩
  simp only [rename_phase]
  rw [hl]
  simp only [if_neg hmem]
  rw [h1]
  simp only [hcf]

/-- Claim C4: on a rename entry whose legacy source and existing target
resolve to the same commit, with every store operation succeeding, the
rename phase deletes the old tag (locally, and remotely when a remote is
configured), keeps the target bound to that commit, records the entry as a
conflict-resolved rename, appends no error, and protects the target. -/
theorem rename_conflict_same_commit (o : FailureOracle) (remote : Option String)
    (entry : RenameEntry) (rest : List RenameEntry) (s : Store) (result : ExecuteResult)
    (protected_tags : List Tag) (ts : List Tag) (c : Commit)
    (hl : list_tags o s = Except.ok ts) (hmem : entry.new_name ∈ ts)
    (h1 : get_tag_commit o s entry.old_name = Except.ok c)
    (h2 : get_tag_commit o s entry.new_name = Except.ok c)
    (hlegacy : NWAVE_PFX.data <+: entry.old_name.data)
    (htarget : entry.new_name = rename_target entry.old_name)
    (hpres : (s.tags.lookup entry.old_name).isSome = true)
    (hdel : o.delete_local_fails entry.old_name = false)
    (hrem : o.delete_remote_fails entry.old_name = false) :
    rename_phase o remote (entry :: rest) s result protected_tags =
      rename_phase o remote rest
        { s with
            tags := s.tags.filter (fun p => !(p.1 == entry.old_name)),
            remote_tags := match remote with
              | some _ => s.remote_tags.filter (fun p => !(p.1 == entry.old_name))
              | none => s.remote_tags }
        { result with
            renamed_count := result.renamed_count + 1,
            renamed_tags := result.renamed_tags ++
              [entry.old_name ++ (" -> ") ++ entry.new_name ++ (" (conflict resolved)")] }
        (protected_tags ++ [entry.new_name]) ∧
    (s.tags.filter (fun p => !(p.1 == entry.old_name))).lookup entry.new_name = some c := by
  have hdiff : entry.new_name ≠ entry.old_name := by
    intro he
    have hv : entry.new_name.data = 'v' :: entry.old_name.data.drop NWAVE_PFX.data.length := by
      rw [htarget]; rfl
    rcases hlegacy with ⟨tl, htl⟩
    have hn : entry.old_name.data = 'n' :: (['W', 'a', 'v', 'e', '_', 'v'] ++ tl) := by
      rw [← htl]; rfl
    rw [he, hn] at hv
    exact absurd (List.cons.injEq _ _ _ _ ▸ hv).1 (by decide)
  have hnew : (s.tags.filter (fun p => !(p.1 == entry.old_name))).lookup entry.new_name =
      some c := by
    rw [lookup_filter_ne hdiff]
    unfold get_tag_commit at h2
    by_cases hr : o.resolve_fails entry.new_name = true
    · rw [if_pos hr] at h2
      exact absurd h2 (by simp)
    · rw [if_neg hr] at h2
      cases hlk : s.tags.lookup entry.new_name with
      | some cc => rw [hlk] at h2; cases h2; rfl
      | none => rw [hlk] at h2; exact absurd h2 (by simp)
  refine ⟨?_, hnew⟩
  simp only [rename_phase]
  rw [hl]
  simp only [if_pos hmem]
  rw [h1, h2]
  simp only [if_pos rfl]
  cases remote with
  | none =>
    simp [delete_tag_local, remote_delete_step, hpres, hdel]
  | some rem =>
    simp [delete_tag_local, remote_delete_step, delete_tag_remote, hpres, hdel, hrem]

/-- Witness for claim C3 on the two-tag conflict store. -/
theorem rename_conflict_different_commits_witness :
    rename_phase noFailures none [⟨("nWave_v1.0.0"), ("v1.0.0")⟩] conflict_store
        ExecuteResult.init [] =
      Except.ok (conflict_store,
        ⟨0, [], 0, [],
          [("Conflict: nWave_v1.0.0 and v1.0.0 point to different commits. Old: a1a1a1a1, existing: b2b2b2b2. Skipped.")]⟩,
        []) :=
  Eq.trans
    (rename_conflict_different_commits noFailures none ⟨("nWave_v1.0.0"), ("v1.0.0")⟩ []
      conflict_store ExecuteResult.init [] [("nWave_v1.0.0"), ("v1.0.0")]
      ("a1a1a1a1a1") ("b2b2b2b2b2") rfl (by decide) rfl rfl (by decide)) rfl

/-- Witness for claim C8 on the small store with a failing tag creation. -/
theorem rename_create_failure_witness :
    rename_phase create_fail_oracle none [⟨("nWave_v1.0.0"), ("v1.0.0")⟩] small_store
        ExecuteResult.init [] =
      Except.ok (small_store,
        ⟨0, [], 0, [], [("Failed to create tag v1.0.0: git tag failed for v1.0.0")]⟩, []) ∧
    small_store.tags.lookup ("nWave_v1.0.0") = some ("c1c1c1c1c1") :=
  ⟨Eq.trans
      (rename_create_failure create_fail_oracle none ⟨("nWave_v1.0.0"), ("v1.0.0")⟩ []
        small_store ExecuteResult.init [] [("nWave_v1.0.0"), ("v2.0.0")] ("c1c1c1c1c1")
        ("git tag failed for v1.0.0") rfl (by decide) rfl rfl).1 rfl,
    (rename_create_failure create_fail_oracle none ⟨("nWave_v1.0.0"), ("v1.0.0")⟩ []
        small_store ExecuteResult.init [] [("nWave_v1.0.0"), ("v2.0.0")] ("c1c1c1c1c1")
        ("git tag failed for v1.0.0") rfl (by decide) rfl rfl).2⟩

/-- Witness for claim C4 on the benign-duplicate store. -/
theorem rename_conflict_same_commit_witness :
    rename_phase noFailures none [⟨("nWave_v1.0.0"), ("v1.0.0")⟩] duplicate_store
        ExecuteResult.init [] =
      Except.ok (⟨[(("v1.0.0"), ("a1a1a1a1a1"))], []⟩,
        ⟨1, [("nWave_v1.0.0 -> v1.0.0 (conflict resolved)")], 0, [], []⟩, [("v1.0.0")]) ∧
    (duplicate_store.tags.filter (fun p => !(p.1 == ("nWave_v1.0.0")))).lookup ("v1.0.0") =
      some ("a1a1a1a1a1") :=
  ⟨Eq.trans
      (rename_conflict_same_commit noFailures none ⟨("nWave_v1.0.0"), ("v1.0.0")⟩ []
        duplicate_store ExecuteResult.init [] [("nWave_v1.0.0"), ("v1.0.0")] ("a1a1a1a1a1")
        rfl (by decide) rfl rfl (by decide) rfl rfl rfl rfl).1 rfl,
    (rename_conflict_same_commit noFailures none ⟨("nWave_v1.0.0"), ("v1.0.0")⟩ []
        duplicate_store ExecuteResult.init [] [("nWave_v1.0.0"), ("v1.0.0")] ("a1a1a1a1a1")
        rfl (by decide) rfl rfl (by decide) rfl rfl rfl rfl).2⟩

/-- Inversion of a successful _list_tags call. -/
theorem list_tags_ok_inv {o : FailureOracle} {s : Store} {ts : List Tag}
    (h : list_tags o s = Except.ok ts) :
    o.list_fails = false ∧ ts = sort_tags (s.tags.map Prod.fst) := by
  by_cases hf : o.list_fails = true
  · exfalso
    unfold list_tags at h
    rw [if_pos hf] at h
    exact absurd h (by simp)
  · constructor
    · simpa using hf
    · unfold list_tags at h
      rw [if_neg hf] at h
      simpa using h.symm

/-- Inversion of a successful plan call. -/
theorem plan_ok_inv {o : FailureOracle} {s : Store} {p : CleanupPlan}
    (h : plan o s = Except.ok p) :
    o.list_fails = false ∧ p = plan_tags (sort_tags (s.tags.map Prod.fst)) := by
  unfold plan at h
  cases hl : list_tags o s with
  | error e => rw [hl] at h; exact absurd h (by simp)
  | ok ts =>
    rw [hl] at h
    rcases list_tags_ok_inv hl with ⟨hf, hts⟩
    refine ⟨hf, ?_⟩
    simp only at h
    rw [← hts]
    exact (by simpa using h.symm)

/-- The rename side of plan's partition is exactly the RENAME-classified
tags, in order, paired with their rename targets. -/
theorem plan_tags_to_rename (l : List Tag) :
    (plan_tags l).to_rename =
      (l.filter (fun t => classify_tag t == TagClassification.RENAME)).map
        (fun t => ⟨t, rename_target t⟩) := by
  induction l with
  | nil => rfl
  | cons t rest ih =>
    cases h : classify_tag t with
    | RENAME => simp [plan_tags, h, List.filter_cons, ih, beq_iff_eq]
    | DELETE => simp [plan_tags, h, List.filter_cons, ih, beq_iff_eq]

/-- The delete side of plan's partition is exactly the DELETE-classified
tags, in order. -/
theorem plan_tags_to_delete (l : List Tag) :
    (plan_tags l).to_delete =
      (l.filter (fun t => classify_tag t == TagClassification.DELETE)).map
        (fun t => ⟨t, TagClassification.DELETE⟩) := by
  induction l with
  | nil => rfl
  | cons t rest ih =>
    cases h : classify_tag t with
    | RENAME => simp [plan_tags, h, List.filter_cons, ih, beq_iff_eq]
    | DELETE => simp [plan_tags, h, List.filter_cons, ih, beq_iff_eq]

/-- Claim C5: the old names of plan().to_rename together with the names of
plan().to_delete are exactly the full current tag set (a permutation of the
store's tag-name column), no name appears on both sides, and every entry of
to_delete is classified DELETE. -/
theorem plan_partitions (o : FailureOracle) (s : Store) (p : CleanupPlan)
    (h : plan o s = Except.ok p) :
    List.Perm (p.to_rename.map RenameEntry.old_name ++ p.to_delete.map ClassifiedTag.name)
      (s.tags.map Prod.fst) ∧
    (∀ n ∈ p.to_rename.map RenameEntry.old_name, n ∉ p.to_delete.map ClassifiedTag.name) ∧
    (∀ t ∈ p.to_delete, t.classification = TagClassification.DELETE) := by
  rcases plan_ok_inv h with ⟨-, hp⟩
  subst hp
  have h1 : (plan_tags (sort_tags (s.tags.map Prod.fst))).to_rename.map RenameEntry.old_name =
      (sort_tags (s.tags.map Prod.fst)).filter
        (fun t => classify_tag t == TagClassification.RENAME) := by
    rw [plan_tags_to_rename, List.map_map]
    exact List.map_id'' (fun x => rfl) _
  have h2 : (plan_tags (sort_tags (s.tags.map Prod.fst))).to_delete.map ClassifiedTag.name =
      (sort_tags (s.tags.map Prod.fst)).filter
        (fun t => classify_tag t == TagClassification.DELETE) := by
    rw [plan_tags_to_delete, List.map_map]
    exact List.map_id'' (fun x => rfl) _
  refine ⟨?_, ?_, ?_⟩
  · rw [h1, h2]
    have hneg : (sort_tags (s.tags.map Prod.fst)).filter
        (fun t => classify_tag t == TagClassification.DELETE) =
        (sort_tags (s.tags.map Prod.fst)).filter
          (fun t => !(classify_tag t == TagClassification.RENAME)) := by
      apply List.filter_congr
      intro a _
      cases hc : classify_tag a <;> simp [hc]
    rw [hneg]
    exact (List.filter_append_perm _ _).trans (sort_tags_perm _)
  · intro n hn hmem
    rw [h1] at hn
    rw [h2] at hmem
    have hr := (List.mem_filter.mp hn).2
    have hd := (List.mem_filter.mp hmem).2
    rw [beq_iff_eq] at hr hd
    rw [hr] at hd
    exact absurd hd (by decide)
  · intro t ht
    rw [plan_tags_to_delete] at ht
    rcases List.mem_map.mp ht with ⟨a, -, he⟩
    rw [← he]

/-- Witness for claim C5 on the ten-tag scenario store, instantiating the
disjointness part at nWave_v1.1.20 and the classification part at v1.4.8. -/
theorem plan_partitions_witness :
    List.Perm
      (scenarioPlanned.to_rename.map RenameEntry.old_name ++
        scenarioPlanned.to_delete.map ClassifiedTag.name)
      (scenario_store.tags.map Prod.fst) ∧
    ("nWave_v1.1.20" : Tag) ∉ scenarioPlanned.to_delete.map ClassifiedTag.name ∧
    (⟨("v1.4.8"), TagClassification.DELETE⟩ : ClassifiedTag).classification =
      TagClassification.DELETE :=
  ⟨(plan_partitions noFailures scenario_store scenarioPlanned rfl).1,
   (plan_partitions noFailures scenario_store scenarioPlanned rfl).2.1 ("nWave_v1.1.20")
     (by decide),
   (plan_partitions noFailures scenario_store scenarioPlanned rfl).2.2
     ⟨("v1.4.8"), TagClassification.DELETE⟩ (by decide)⟩

/-- The local-deletion helper never touches the four count/description fields. -/
theorem delete_tag_local_fields (o : FailureOracle) (t : Tag) (s : Store) (r : ExecuteResult) :
    ((delete_tag_local o t s r).2.2).renamed_count = r.renamed_count ∧
    ((delete_tag_local o t s r).2.2).renamed_tags = r.renamed_tags ∧
    ((delete_tag_local o t s r).2.2).deleted_count = r.deleted_count ∧
    ((delete_tag_local o t s r).2.2).deleted_tags = r.deleted_tags := by
  unfold delete_tag_local
  split <;> exact ⟨rfl, rfl, rfl, rfl⟩

/-- The remote-deletion step never touches the count/description fields. -/
theorem remote_delete_step_fields (o : FailureOracle) (remote : Option String) (t : Tag)
    (s : Store) (r : ExecuteResult) :
    ((remote_delete_step o remote t s r).2).renamed_count = r.renamed_count ∧
    ((remote_delete_step o remote t s r).2).renamed_tags = r.renamed_tags ∧
    ((remote_delete_step o remote t s r).2).deleted_count = r.deleted_count ∧
    ((remote_delete_step o remote t s r).2).deleted_tags = r.deleted_tags := by
  cases remote with
  | none => exact ⟨rfl, rfl, rfl, rfl⟩
  | some rem =>
    simp only [remote_delete_step, delete_tag_remote]
    split <;> exact ⟨rfl, rfl, rfl, rfl⟩

/-- The push step never touches the count/description fields. -/
theorem push_step_fields (o : FailureOracle) (remote : Option String) (t : Tag)
    (s : Store) (r : ExecuteResult) :
    ((push_step o remote t s r).2).renamed_count = r.renamed_count ∧
    ((push_step o remote t s r).2).renamed_tags = r.renamed_tags ∧
    ((push_step o remote t s r).2).deleted_count = r.deleted_count ∧
    ((push_step o remote t s r).2).deleted_tags = r.deleted_tags := by
  cases remote with
  | none => exact ⟨rfl, rfl, rfl, rfl⟩
  | some rem =>
    simp only [push_step]
    split <;> exact ⟨rfl, rfl, rfl, rfl⟩

/-- The counts_ok invariant survives a local deletion. -/
theorem counts_ok_delete_tag_local {r : ExecuteResult} (o : FailureOracle) (t : Tag) (s : Store)
    (hc : counts_ok r) : counts_ok (delete_tag_local o t s r).2.2 := by
  unfold delete_tag_local
  split <;> exact hc

/-- The counts_ok invariant survives the remote-deletion step. -/
theorem counts_ok_remote_delete_step {r : ExecuteResult} (o : FailureOracle)
    (remote : Option String) (t : Tag) (s : Store) (hc : counts_ok r) :
    counts_ok (remote_delete_step o remote t s r).2 := by
  cases remote with
  | none => exact hc
  | some rem =>
    simp only [remote_delete_step, delete_tag_remote]
    split <;> exact hc

/-- The counts_ok invariant survives the push step. -/
theorem counts_ok_push_step {r : ExecuteResult} (o : FailureOracle) (remote : Option String)
    (t : Tag) (s : Store) (hc : counts_ok r) : counts_ok (push_step o remote t s r).2 := by
  cases remote with
  | none => exact hc
  | some rem =>
    simp only [push_step]
    split <;> exact hc

/-- Incrementing renamed_count while appending one description keeps the
counts in step. -/
theorem counts_ok_record_rename {x : ExecuteResult} (d : String) (hc : counts_ok x) :
    counts_ok { x with renamed_count := x.renamed_count + 1,
                       renamed_tags := x.renamed_tags ++ [d] } := by
  constructor
  · show x.renamed_count + 1 = (x.renamed_tags ++ [d]).length
    rw [List.length_append, hc.1]
    rfl
  · exact hc.2

/-- Incrementing deleted_count while appending one description keeps the
counts in step. -/
theorem counts_ok_record_delete {x : ExecuteResult} (d : String) (hc : counts_ok x) :
    counts_ok { x with deleted_count := x.deleted_count + 1,
                       deleted_tags := x.deleted_tags ++ [d] } := by
  constructor
  · exact hc.1
  · show x.deleted_count + 1 = (x.deleted_tags ++ [d]).length
    rw [List.length_append, hc.2]
    rfl

/-- Phase 1 keeps the counters in step with their description lists. -/
theorem rename_phase_counts (o : FailureOracle) (remote : Option String)
    (es : List RenameEntry) :
    ∀ (s : Store) (r : ExecuteResult) (prot : List Tag) (s' : Store) (r' : ExecuteResult)
      (prot' : List Tag),
      rename_phase o remote es s r prot = Except.ok (s', r', prot') →
      counts_ok r → counts_ok r' := by
  induction es with
  | nil =>
    intro s r prot s' r' prot' h hc
    simp only [rename_phase, Except.ok.injEq, Prod.mk.injEq] at h
    obtain ⟨-, h2, -⟩ := h
    rw [← h2]
    exact hc
  | cons e rest ih =>
    intro s r prot s' r' prot' h hc
    simp only [rename_phase] at h
    cases hls : list_tags o s with
    | error msg => rw [hls] at h; simp at h
    | ok existing =>
      simp only [hls] at h
      by_cases hmem : e.new_name ∈ existing
      · rw [if_pos hmem] at h
        cases ho : get_tag_commit o s e.old_name with
        | error m => rw [ho] at h; simp at h
        | ok oc =>
          simp only [ho] at h
          cases hn : get_tag_commit o s e.new_name with
          | error m => rw [hn] at h; simp at h
          | ok nc =>
            simp only [hn] at h
            by_cases hcc : oc = nc
            · rw [if_pos hcc] at h
              exact ih _ _ _ _ _ _ h
                (counts_ok_record_rename _
                  (counts_ok_remote_delete_step _ _ _ _
                    (counts_ok_delete_tag_local _ _ _ hc)))
            · rw [if_neg hcc] at h
              exact ih _ _ _ _ _ _ h hc
      · rw [if_neg hmem] at h
        cases ho : get_tag_commit o s e.old_name with
        | error m => rw [ho] at h; simp at h
        | ok oc =>
          simp only [ho] at h
          cases hct : create_tag o s e.new_name oc with
          | error msg =>
            simp only [hct] at h
            exact ih _ _ _ _ _ _ h hc
          | ok s1 =>
            simp only [hct] at h
            exact ih _ _ _ _ _ _ h
              (counts_ok_record_rename _
                (counts_ok_remote_delete_step _ _ _ _
                  (counts_ok_delete_tag_local _ _ _
                    (counts_ok_push_step _ _ _ _ hc))))

/-- Phase 2 keeps the counters in step with their description lists. -/
theorem delete_phase_counts (o : FailureOracle) (remote gh : Option String)
    (prot : List Tag) (l : List Tag) :
    ∀ (s : Store) (r : ExecuteResult),
      counts_ok r → counts_ok (delete_phase o remote gh prot l s r).2 := by
  induction l with
  | nil => intro s r hc; exact hc
  | cons t rest ih =>
    intro s r hc
    simp only [delete_phase]
    by_cases hp : t ∈ prot
    · rw [if_pos hp]
      exact ih _ _ hc
    · rw [if_neg hp]
      by_cases hcl : classify_tag t = TagClassification.DELETE
      · rw [if_pos hcl]
        by_cases hs : (delete_tag_local o t s r).1 = true
        · rw [if_pos hs]
          exact ih _ _
            (counts_ok_record_delete _
              (counts_ok_remote_delete_step _ _ _ _
                (counts_ok_delete_tag_local _ _ _ hc)))
        · rw [if_neg hs]
          exact ih _ _ (counts_ok_delete_tag_local _ _ _ hc)
      · rw [if_neg hcl]
        exact ih _ _ hc

/-- Claim C10: in every result returned by execute, renamed_count equals the
length of renamed_tags and deleted_count equals the length of deleted_tags. -/
theorem execute_counts (o : FailureOracle) (gh remote : Option String) (s : Store)
    (res : ExecuteResult) (sFin : Store)
    (h : execute o gh remote s = Except.ok (res, sFin)) :
    res.renamed_count = res.renamed_tags.length ∧
      res.deleted_count = res.deleted_tags.length := by
  unfold execute at h
  cases hp : plan o s with
  | error e => rw [hp] at h; simp at h
  | ok cleanup_plan =>
    simp only [hp] at h
    cases hr : rename_phase o remote cleanup_plan.to_rename s ExecuteResult.init [] with
    | error e => rw [hr] at h; simp at h
    | ok out =>
      obtain ⟨s1, r1, prot⟩ := out
      simp only [hr] at h
      cases hl : list_tags o s1 with
      | error e => rw [hl] at h; simp at h
      | ok current =>
        simp only [hl, Except.ok.injEq, Prod.mk.injEq] at h
        obtain ⟨h1, -⟩ := h
        rw [← h1]
        exact delete_phase_counts o remote gh prot current s1 r1
          (rename_phase_counts o remote cleanup_plan.to_rename s ExecuteResult.init []
            s1 r1 prot hr ⟨rfl, rfl⟩)

/-- Witness for claim C10 on the scenario run. -/
theorem execute_counts_witness :
    scenario_result.renamed_count = scenario_result.renamed_tags.length ∧
      scenario_result.deleted_count = scenario_result.deleted_tags.length :=
  execute_counts noFailures none none scenario_store scenario_result scenario_final rfl

/-- Phase 1 never appends to deleted_tags. -/
theorem rename_phase_deleted (o : FailureOracle) (remote : Option String)
    (es : List RenameEntry) :
    ∀ (s : Store) (r : ExecuteResult) (prot : List Tag) (s' : Store) (r' : ExecuteResult)
      (prot' : List Tag),
      rename_phase o remote es s r prot = Except.ok (s', r', prot') →
      r'.deleted_tags = r.deleted_tags := by
  induction es with
  | nil =>
    intro s r prot s' r' prot' h
    simp only [rename_phase, Except.ok.injEq, Prod.mk.injEq] at h
    obtain ⟨-, h2, -⟩ := h
    rw [← h2]
  | cons e rest ih =>
    intro s r prot s' r' prot' h
    simp only [rename_phase] at h
    cases hls : list_tags o s with
    | error msg => rw [hls] at h; simp at h
    | ok existing =>
      simp only [hls] at h
      by_cases hmem : e.new_name ∈ existing
      · rw [if_pos hmem] at h
        cases ho : get_tag_commit o s e.old_name with
        | error m => rw [ho] at h; simp at h
        | ok oc =>
          simp only [ho] at h
          cases hn : get_tag_commit o s e.new_name with
          | error m => rw [hn] at h; simp at h
          | ok nc =>
            simp only [hn] at h
            by_cases hcc : oc = nc
            · rw [if_pos hcc] at h
              rw [ih _ _ _ _ _ _ h]
              exact ((remote_delete_step_fields o remote e.old_name _ _).2.2.2).trans
                ((delete_tag_local_fields o e.old_name s r).2.2.2)
            · rw [if_neg hcc] at h
              rw [ih _ _ _ _ _ _ h]
      · rw [if_neg hmem] at h
        cases ho : get_tag_commit o s e.old_name with
        | error m => rw [ho] at h; simp at h
        | ok oc =>
          simp only [ho] at h
          cases hct : create_tag o s e.new_name oc with
          | error msg =>
            simp only [hct] at h
            rw [ih _ _ _ _ _ _ h]
          | ok s1 =>
            simp only [hct] at h
            rw [ih _ _ _ _ _ _ h]
            exact ((remote_delete_step_fields o remote e.old_name _ _).2.2.2).trans
              (((delete_tag_local_fields o e.old_name _ _).2.2.2).trans
                ((push_step_fields o remote e.new_name s1 r).2.2.2))

/-- The remote-deletion step never touches the local tag namespace. -/
theorem remote_delete_step_tags (o : FailureOracle) (remote : Option String) (t : Tag)
    (s : Store) (r : ExecuteResult) : ((remote_delete_step o remote t s r).1).tags = s.tags := by
  cases remote with
  | none => rfl
  | some rem =>
    simp only [remote_delete_step, delete_tag_remote]
    split <;> rfl

/-- Deleting one local tag leaves every other name's binding unchanged. -/
theorem delete_tag_local_lookup_ne (o : FailureOracle) (tag : Tag) (s : Store)
    (r : ExecuteResult) {t : Tag} (hne : t ≠ tag) :
    ((delete_tag_local o tag s r).2.1).tags.lookup t = s.tags.lookup t := by
  unfold delete_tag_local
  split
  · exact lookup_filter_ne hne s.tags
  · rfl

/-- Phase 2 deletes only unprotected names: a protected tag never enters the
new part of deleted_tags and its local binding survives the phase. -/
theorem delete_phase_protected (o : FailureOracle) (remote gh : Option String)
    (prot : List Tag) (t : Tag) (ht : t ∈ prot) (l : List Tag) :
    ∀ (s : Store) (r : ExecuteResult),
      (∀ x ∈ ((delete_phase o remote gh prot l s r).2).deleted_tags,
          x ∈ r.deleted_tags ∨ x ∉ prot) ∧
      ((delete_phase o remote gh prot l s r).1).tags.lookup t = s.tags.lookup t := by
  induction l with
  | nil => intro s r; exact ⟨fun x hx => Or.inl hx, rfl⟩
  | cons tag rest ih =>
    intro s r
    simp only [delete_phase]
    by_cases hp : tag ∈ prot
    · rw [if_pos hp]
      exact ih s r
    · rw [if_neg hp]
      by_cases hcl : classify_tag tag = TagClassification.DELETE
      · rw [if_pos hcl]
        by_cases hs : (delete_tag_local o tag s r).1 = true
        · rw [if_pos hs]
          constructor
          · intro x hx
            rcases (ih _ _).1 x hx with hx1 | hx2
            · have e1 : (remote_delete_step o remote tag (delete_tag_local o tag s r).2.1
                  (delete_tag_local o tag s r).2.2).2.deleted_tags = r.deleted_tags :=
                ((remote_delete_step_fields o remote tag _ _).2.2.2).trans
                  ((delete_tag_local_fields o tag s r).2.2.2)
              have hx1' : x ∈ r.deleted_tags ++ [tag] := by
                rw [← e1]
                exact hx1
              rcases List.mem_append.mp hx1' with h1 | h1
              · exact Or.inl h1
              · right
                have hxt : x = tag := by simpa using h1
                rw [hxt]
                exact hp
            · exact Or.inr hx2
          · rw [(ih _ _).2, remote_delete_step_tags]
            exact delete_tag_local_lookup_ne o tag s r (fun he => hp (he ▸ ht))
        · rw [if_neg hs]
          constructor
          · intro x hx
            rcases (ih _ _).1 x hx with hx1 | hx2
            · left
              rw [← (delete_tag_local_fields o tag s r).2.2.2]
              exact hx1
            · exact Or.inr hx2
          · rw [(ih _ _).2]
            exact delete_tag_local_lookup_ne o tag s r (fun he => hp (he ▸ ht))
      · rw [if_neg hcl]
        exact ih s r

/-- Claim C1: every tag name entering the protected set during the rename
phase of an execute run is never deleted by that run's delete phase: it does
not occur in the result's deleted_tags and its local binding after the
rename phase survives to the final store. -/
theorem execute_protected_not_deleted (o : FailureOracle) (gh remote : Option String)
    (s : Store) (p : CleanupPlan) (s1 : Store) (r1 : ExecuteResult) (prot : List Tag)
    (res : ExecuteResult) (sFin : Store)
    (hplan : plan o s = Except.ok p)
    (hren : rename_phase o remote p.to_rename s ExecuteResult.init [] = Except.ok (s1, r1, prot))
    (hexec : execute o gh remote s = Except.ok (res, sFin)) :
    ∀ t ∈ prot, t ∉ res.deleted_tags ∧ sFin.tags.lookup t = s1.tags.lookup t := by
  intro t ht
  unfold execute at hexec
  simp only [hplan, hren] at hexec
  cases hl : list_tags o s1 with
  | error e => rw [hl] at hexec; simp at hexec
  | ok current =>
    simp only [hl, Except.ok.injEq, Prod.mk.injEq] at hexec
    obtain ⟨h1, h2⟩ := hexec
    have hdel0 : r1.deleted_tags = [] :=
      rename_phase_deleted o remote p.to_rename s ExecuteResult.init [] s1 r1 prot hren
    constructor
    · intro hmem
      rw [← h1] at hmem
      rcases (delete_phase_protected o remote gh prot t ht current s1 r1).1 _ hmem with hx | hx
      · rw [hdel0] at hx
        exact absurd hx (List.not_mem_nil _)
      · exact absurd ht hx
    · rw [← h2]
      exact (delete_phase_protected o remote gh prot t ht current s1 r1).2

/-- Witness for claim C1 on the scenario run, at the protected tag v1.1.20. -/
theorem execute_protected_not_deleted_witness :
    ("v1.1.20" : Tag) ∉ scenario_result.deleted_tags ∧
      scenario_final.tags.lookup ("v1.1.20") = scenario_after_rename.tags.lookup ("v1.1.20") :=
  execute_protected_not_deleted noFailures none none scenario_store scenarioPlanned
    scenario_after_rename scenario_r1 [("v1.1.20"), ("v1.1.21")] scenario_result
    scenario_final rfl rfl rfl ("v1.1.20") (by decide)

/-- Counterexample to claim C2 as stated: when the single failing store
operation is the commit resolution of nWave_v1.0.0, execute raises (the
embedded run returns the propagated error) instead of catching it and
appending it to errors. -/
theorem execute_raises_on_resolve_failure :
    execute resolve_fail_oracle none none small_store =
      Except.error ("git rev-list failed for nWave_v1.0.0") := rfl

/-- A resolve call with a successful oracle on a present tag returns a
commit. -/
theorem get_tag_commit_ok (o : FailureOracle) (s : Store) (t : Tag)
    (hres : o.resolve_fails t = false) (hpres : (s.tags.lookup t).isSome = true) :
    ∃ c, get_tag_commit o s t = Except.ok c := by
  unfold get_tag_commit
  rw [hres]
  cases hlk : s.tags.lookup t with
  | some c => exact ⟨c, by simp⟩
  | none => rw [hlk] at hpres; simp at hpres

/-- A successful tag creation appends the new binding. -/
theorem create_tag_ok_tags {o : FailureOracle} {s : Store} {t : Tag} {c : Commit} {s1 : Store}
    (h : create_tag o s t c = Except.ok s1) : s1.tags = s.tags ++ [(t, c)] := by
  unfold create_tag at h
  split at h
  · exact absurd h (by simp)
  · simp only [Except.ok.injEq] at h
    rw [← h]

/-- The push step never touches the local tag namespace. -/
theorem push_step_tags (o : FailureOracle) (remote : Option String) (t : Tag)
    (s : Store) (r : ExecuteResult) : ((push_step o remote t s r).1).tags = s.tags := by
  cases remote with
  | none => rfl
  | some rem =>
    simp only [push_step, push_tag]
    by_cases hf : o.push_fails t = true
    · rw [if_pos hf]
    · rw [if_neg hf]
      cases hlk : s.tags.lookup t <;> rfl

/-- When both read operations succeed, the entries' source tags are all
present, and their names are distinct, phase 1 always returns a result,
whatever create, push or delete calls fail. -/
theorem rename_phase_total (o : FailureOracle) (remote : Option String)
    (hlist : o.list_fails = false) (hres : ∀ t, o.resolve_fails t = false)
    (es : List RenameEntry) :
    ∀ (s : Store) (r : ExecuteResult) (prot : List Tag),
      (es.map RenameEntry.old_name).Nodup →
      (∀ e ∈ es, (s.tags.lookup e.old_name).isSome = true) →
      ∃ out, rename_phase o remote es s r prot = Except.ok out := by
  induction es with
  | nil =>
    intro s r prot _ _
    exact ⟨(s, r, prot), rfl⟩
  | cons e rest ih =>
    intro s r prot hnd hpres
    have hlt : list_tags o s = Except.ok (sort_tags (s.tags.map Prod.fst)) := by
      simp [list_tags, hlist]
    simp only [rename_phase, hlt]
    have hpe : (s.tags.lookup e.old_name).isSome = true :=
      hpres e (List.mem_cons_self e rest)
    obtain ⟨c1, hg1⟩ := get_tag_commit_ok o s e.old_name (hres _) hpe
    have hnd' : (rest.map RenameEntry.old_name).Nodup := (List.nodup_cons.mp hnd).2
    have hnotin : e.old_name ∉ rest.map RenameEntry.old_name := (List.nodup_cons.mp hnd).1
    by_cases hmem : e.new_name ∈ sort_tags (s.tags.map Prod.fst)
    · rw [if_pos hmem]
      have hpn : (s.tags.lookup e.new_name).isSome = true := by
        simpa using lookup_isSome_of_mem_names (mem_sort_tags.mp hmem)
      obtain ⟨c2, hg2⟩ := get_tag_commit_ok o s e.new_name (hres _) hpn
      simp only [hg1, hg2]
      by_cases hcc : c1 = c2
      · rw [if_pos hcc]
        refine ih _ _ _ hnd' ?_
        intro e' he'
        have hne : e'.old_name ≠ e.old_name := fun heq =>
          hnotin (heq ▸ List.mem_map_of_mem RenameEntry.old_name he')
        rw [remote_delete_step_tags, delete_tag_local_lookup_ne o e.old_name s r hne]
        exact hpres e' (List.mem_cons_of_mem _ he')
      · rw [if_neg hcc]
        exact ih _ _ _ hnd' (fun e' he' => hpres e' (List.mem_cons_of_mem _ he'))
    · rw [if_neg hmem]
      simp only [hg1]
      cases hct : create_tag o s e.new_name c1 with
      | error msg =>
        simp only []
        exact ih _ _ _ hnd' (fun e' he' => hpres e' (List.mem_cons_of_mem _ he'))
      | ok s1 =>
        simp only []
        refine ih _ _ _ hnd' ?_
        intro e' he'
        have hne : e'.old_name ≠ e.old_name := fun heq =>
          hnotin (heq ▸ List.mem_map_of_mem RenameEntry.old_name he')
        rw [remote_delete_step_tags, delete_tag_local_lookup_ne _ _ _ _ hne, push_step_tags]
        have hp' : (s.tags.lookup e'.old_name).isSome = true :=
          hpres e' (List.mem_cons_of_mem _ he')
        rw [create_tag_ok_tags hct, List.lookup_append]
        cases hlk : s.tags.lookup e'.old_name with
        | some c' => simp [Option.or]
        | none => rw [hlk] at hp'; simp at hp'

/-- Claim C2 (amended): for every store with distinct tag names and every
pattern of create, push, local-delete and remote-delete failures, execute
returns a result (never raises) provided the list and resolve reads succeed;
a read failure instead propagates out of execute, as the counterexample
shows. -/
theorem execute_total_when_reads_succeed (o : FailureOracle) (gh remote : Option String)
    (s : Store)
    (hlist : o.list_fails = false)
    (hres : ∀ t, o.resolve_fails t = false)
    (hnodup : (s.tags.map Prod.fst).Nodup) :
    ∃ res sFin, execute o gh remote s = Except.ok (res, sFin) := by
  have hlt : list_tags o s = Except.ok (sort_tags (s.tags.map Prod.fst)) := by
    simp [list_tags, hlist]
  have hplan : plan o s = Except.ok (plan_tags (sort_tags (s.tags.map Prod.fst))) := by
    simp [plan, hlt]
  have hsortnd : (sort_tags (s.tags.map Prod.fst)).Nodup :=
    ((sort_tags_perm _).nodup_iff).mpr hnodup
  have heq : ((plan_tags (sort_tags (s.tags.map Prod.fst))).to_rename.map
      RenameEntry.old_name) =
      (sort_tags (s.tags.map Prod.fst)).filter
        (fun t => classify_tag t == TagClassification.RENAME) := by
    rw [plan_tags_to_rename, List.map_map]
    exact List.map_id'' (fun x => rfl) _
  have hnd : ((plan_tags (sort_tags (s.tags.map Prod.fst))).to_rename.map
      RenameEntry.old_name).Nodup := by
    rw [heq]
    exact hsortnd.filter _
  have hpres : ∀ e ∈ (plan_tags (sort_tags (s.tags.map Prod.fst))).to_rename,
      (s.tags.lookup e.old_name).isSome = true := by
    intro e he
    rw [plan_tags_to_rename] at he
    rcases List.mem_map.mp he with ⟨t, htf, rfl⟩
    have htm : t ∈ s.tags.map Prod.fst := mem_sort_tags.mp (List.mem_filter.mp htf).1
    simpa using lookup_isSome_of_mem_names htm
  obtain ⟨⟨s1, r1, prot⟩, hren⟩ :=
    rename_phase_total o remote hlist hres _ s ExecuteResult.init [] hnd hpres
  have hlt1 : list_tags o s1 = Except.ok (sort_tags (s1.tags.map Prod.fst)) := by
    simp [list_tags, hlist]
  refine ⟨(delete_phase o remote gh prot (sort_tags (s1.tags.map Prod.fst)) s1 r1).2,
          (delete_phase o remote gh prot (sort_tags (s1.tags.map Prod.fst)) s1 r1).1, ?_⟩
  unfold execute
  simp only [hplan, hren, hlt1]

/-- Witness for the amended claim C2: on the two-tag store with every write
operation failing, execute still returns a result. -/
theorem execute_total_when_reads_succeed_witness :
    ∃ res sFin, execute writes_fail_oracle none none small_store = Except.ok (res, sFin) :=
  execute_total_when_reads_succeed writes_fail_oracle none none small_store rfl
    (fun t => rfl) (by decide)

end NWave
